import Mathlib

/-!
Verification of the vrclog-go watcher core (`pkg/vrclog/watcher.go` and the
compiled event filter of the `vrclog` package) against its design document.

Bytes are modelled as `Nat` (newline = 10, carriage return = 13), the content
of a log file as `List Nat`, and Go strings that only matter as opaque keys
(file paths, event types) as `String`.  I/O failures of the operating system
are outside the model; where a collaborator can fail (the log-file finder, the
tailer constructor, the line parser) the result of that call is passed in as
an explicit `Except`/`Option` argument.
-/

/-- Strips one trailing carriage-return byte (13) from a line, mirroring the
`if len(line) > 0 && line[len(line)-1] == '\r'` step inside `extractLines`. -/
def stripCR (line : List Nat) : List Nat :=
  if line.getLast? = some 13 then line.dropLast else line

/-- The byte scan of `extractLines` (watcher.go): walks the buffer, cutting a
segment at every newline byte; `cur` holds the bytes of the segment read so
far (Go's `buffer[start:i]`).  A finished segment is CR-stripped and kept only
when non-empty, and the final segment (the "last line without newline") is
treated the same way. -/
def scanLines : List Nat → List Nat → List (List Nat)
  | [], cur =>
    let line := stripCR cur
    if line = [] then [] else [line]
  | b :: rest, cur =>
    if b = 10 then
      let line := stripCR cur
      (if line = [] then [] else [line]) ++ scanLines rest []
    else
      scanLines rest (cur ++ [b])

/-- Embedding of `extractLines` (watcher.go): extracts the newline-delimited
lines of `buffer`, dropping every line that is empty after CR-stripping, and
keeps only the last `n` of them. -/
def extractLines (buffer : List Nat) (n : Nat) : List (List Nat) :=
  let lines := scanLines buffer []
  if n < lines.length then lines.drop (lines.length - n) else lines

/-- The chunk size used by `readLastNLines` (watcher.go). -/
def chunkSize : Nat := 4096

/-- The backward-chunk loop of `readLastNLines` (watcher.go).  The state is
the current read `offset`, the accumulated `buffer` (always a suffix of the
file) and the lines extracted from it so far.  `fuel` only bounds the number
of iterations so that the recursion is structural: every Go iteration
decreases `offset` by `min chunkSize offset ≥ 1`, so the `file.length` fuel
supplied by `readLastNLines` is never exhausted while the loop condition
`len(lines) < n && offset > 0` still holds. -/
def readLastLoop (file : List Nat) (n : Nat) :
    Nat → Nat → List Nat → List (List Nat) → Nat × List Nat × List (List Nat)
  | 0, offset, buffer, lines => (offset, buffer, lines)
  | fuel + 1, offset, buffer, lines =>
    if lines.length < n ∧ 0 < offset then
      let readSize := min chunkSize offset
      let offset2 := offset - readSize
      let chunk := (file.drop offset2).take readSize
      let buffer2 := chunk ++ buffer
      let lines2 := extractLines buffer2 n
      readLastLoop file n fuel offset2 buffer2 lines2
    else
      (offset, buffer, lines)

/-- Embedding of `readLastNLines` (watcher.go), the ReplayReader: reads the
last `n` lines of `file` by scanning fixed-size chunks backward from the end
of the file.  An empty file returns an empty list (and the Go function
additionally returns a nil error there). -/
def readLastNLines (file : List Nat) (n : Nat) : List (List Nat) :=
  let fileSize := file.length
  if fileSize = 0 then []
  else
    let r := readLastLoop file n fileSize fileSize [] []
    if r.1 = 0 ∧ r.2.2.length < n then extractLines r.2.1 n else r.2.2

/-- Splits a byte list at newline bytes; a buffer ending in a newline yields a
final empty segment.  Spec-side helper used to say what "the lines of a file"
means independently of the implementation. -/
def splitNl : List Nat → List (List Nat)
  | [] => [[]]
  | b :: rest =>
    if b = 10 then [] :: splitNl rest
    else
      match splitNl rest with
      | s :: ss => (b :: s) :: ss
      | [] => [[b]]

/-- The lines of a file in the usual (spec) sense: the newline-separated
segments, not counting the empty segment after a final newline; the empty
file has no lines. -/
def fileLines (file : List Nat) : List (List Nat) :=
  if file = [] then []
  else if file.getLast? = some 10 then (splitNl file).dropLast
  else splitNl file

/-- The lines of a file that are still non-empty after CR-stripping — exactly
the lines that `extractLines` does not drop. -/
def keptLines (file : List Nat) : List (List Nat) :=
  ((splitNl file).map stripCR).filter (fun l => l ≠ [])

/-- Spec-side description of the expected ReplayReader result: the last `n`
lines of the file, oldest first, each with an optional trailing carriage
return stripped. -/
def lastLinesSpec (file : List Nat) (n : Nat) : List (List Nat) :=
  let ls := (fileLines file).map stripCR
  ls.drop (ls.length - n)

example : extractLines [97, 10, 13, 10, 98, 99] 5 = [[97], [98, 99]] := by decide

example : readLastNLines [97, 10, 98, 10, 99, 10] 2 = [[98], [99]] := by decide

example : readLastNLines [10] 1 = [] := by decide

example : (fileLines [10]).length = 1 := by decide

/-! Structural facts connecting the byte scan of `extractLines` with the
spec-side `splitNl` segmentation. -/

theorem splitNl_ne_nil (l : List Nat) : splitNl l ≠ [] := by
  cases l with
  | nil => simp [splitNl]
  | cons b rest =>
    simp only [splitNl]
    split
    · simp
    · cases h : splitNl rest <;> simp

theorem splitNl_eq_single {l : List Nat} (h : 10 ∉ l) : splitNl l = [l] := by
  induction l with
  | nil => rfl
  | cons b rest ih =>
    have hb : b ≠ 10 := fun e => h (by simp [e])
    have hr : 10 ∉ rest := fun m => h (List.mem_cons_of_mem _ m)
    simp only [splitNl, if_neg hb, ih hr]

theorem splitNl_append_nl {cur : List Nat} (rest : List Nat) (h : 10 ∉ cur) :
    splitNl (cur ++ 10 :: rest) = cur :: splitNl rest := by
  induction cur with
  | nil => simp [splitNl]
  | cons c cur' ih =>
    have hc : c ≠ 10 := fun e => h (by simp [e])
    have hcur : 10 ∉ cur' := fun m => h (List.mem_cons_of_mem _ m)
    show splitNl (c :: (cur' ++ 10 :: rest)) = (c :: cur') :: splitNl rest
    rw [splitNl, if_neg hc, ih hcur]

theorem scanLines_eq (buf : List Nat) : ∀ cur, 10 ∉ cur →
    scanLines buf cur = ((splitNl (cur ++ buf)).map stripCR).filter (fun l => l ≠ []) := by
  induction buf with
  | nil =>
    intro cur h
    rw [List.append_nil, splitNl_eq_single h]
    by_cases hc : stripCR cur = [] <;> simp [scanLines, hc]
  | cons b rest ih =>
    intro cur h
    by_cases hb : b = 10
    · subst hb
      rw [splitNl_append_nl rest h]
      simp only [scanLines, if_pos rfl]
      rw [ih [] (by simp), List.nil_append]
      by_cases hc : stripCR cur = [] <;> simp [hc]
    · have h' : 10 ∉ cur ++ [b] := by
        intro m
        rcases List.mem_append.mp m with m | m
        · exact h m
        · simp at m
          exact hb m.symm
      simp only [scanLines, if_neg hb]
      rw [ih _ h', List.append_assoc, List.singleton_append]

theorem scanLines_nil_eq (buf : List Nat) : scanLines buf [] = keptLines buf := by
  have := scanLines_eq buf [] (by simp)
  rwa [List.nil_append] at this

theorem extractLines_length (buffer : List Nat) (n : Nat) :
    (extractLines buffer n).length = min n (scanLines buffer []).length := by
  by_cases h : n < (scanLines buffer []).length
  · simp only [extractLines, if_pos h, List.length_drop]
    omega
  · simp only [extractLines, if_neg h]
    omega

theorem extractLines_nil (n : Nat) : extractLines [] n = [] := by
  simp [extractLines, scanLines, stripCR]

theorem stripCR_cons_ne_nil {s : List Nat} (b : Nat) (h : stripCR s ≠ []) :
    stripCR (b :: s) ≠ [] := by
  have hs : s ≠ [] := by
    intro e
    subst e
    exact h rfl
  have hcons : (b :: s).getLast? = s.getLast? := by
    cases s with
    | nil => exact absurd rfl hs
    | cons c t => exact List.getLast?_cons_cons
  unfold stripCR at h ⊢
  by_cases h13 : s.getLast? = some 13
  · rw [if_pos h13] at h
    rw [hcons, if_pos h13, List.dropLast_cons_of_ne_nil hs]
    simp
  · rw [hcons, if_neg h13]
    simp

theorem keptLines_length_cons (b : Nat) (rest : List Nat) :
    (keptLines rest).length ≤ (keptLines (b :: rest)).length := by
  unfold keptLines
  by_cases hb : b = 10
  · subst hb
    rw [show splitNl (10 :: rest) = [] :: splitNl rest from by simp [splitNl]]
    simp [stripCR]
  · rcases h : splitNl rest with _ | ⟨s, ss⟩
    · exact absurd h (splitNl_ne_nil rest)
    · have hsplit : splitNl (b :: rest) = (b :: s) :: ss := by
        rw [splitNl, if_neg hb, h]
      rw [hsplit]
      simp only [List.map_cons, List.filter_cons]
      by_cases hs : stripCR s = []
      · by_cases hbs : stripCR (b :: s) = [] <;> simp [hs, hbs]
      · have hbs := stripCR_cons_ne_nil b hs
        simp [hs, hbs]

theorem keptLines_length_drop (l : List Nat) :
    ∀ k, (keptLines (l.drop k)).length ≤ (keptLines l).length := by
  induction l with
  | nil => intro k; simp
  | cons b rest ih =>
    intro k
    cases k with
    | zero => simp
    | succ k' =>
      calc (keptLines ((b :: rest).drop (k' + 1))).length
          = (keptLines (rest.drop k')).length := rfl
        _ ≤ (keptLines rest).length := ih k'
        _ ≤ (keptLines (b :: rest)).length := keptLines_length_cons b rest

/-! The backward-chunk loop: each intermediate state holds a suffix of the
file in its buffer, with `lines` the extraction of that buffer, and the loop
only stops early (lines still short of `n`) at the start of the file. -/

theorem readLastLoop_succ_step (file : List Nat) (n fuel offset : Nat)
    (buffer : List Nat) (lines : List (List Nat))
    (h : lines.length < n ∧ 0 < offset) :
    readLastLoop file n (fuel + 1) offset buffer lines =
      readLastLoop file n fuel (offset - min chunkSize offset)
        ((file.drop (offset - min chunkSize offset)).take (min chunkSize offset) ++ buffer)
        (extractLines
          ((file.drop (offset - min chunkSize offset)).take (min chunkSize offset) ++ buffer)
          n) := by
  rw [readLastLoop, if_pos h]

theorem readLastLoop_succ_stop (file : List Nat) (n fuel offset : Nat)
    (buffer : List Nat) (lines : List (List Nat))
    (h : ¬(lines.length < n ∧ 0 < offset)) :
    readLastLoop file n (fuel + 1) offset buffer lines = (offset, buffer, lines) := by
  rw [readLastLoop, if_neg h]

theorem readLastLoop_inv (file : List Nat) (n : Nat) :
    ∀ fuel offset buffer lines, offset ≤ fuel →
      buffer = file.drop offset → lines = extractLines buffer n →
      (readLastLoop file n fuel offset buffer lines).2.1 =
          file.drop (readLastLoop file n fuel offset buffer lines).1 ∧
      (readLastLoop file n fuel offset buffer lines).2.2 =
          extractLines (readLastLoop file n fuel offset buffer lines).2.1 n ∧
      ((readLastLoop file n fuel offset buffer lines).2.2.length < n →
          (readLastLoop file n fuel offset buffer lines).1 = 0) := by
  intro fuel
  induction fuel with
  | zero =>
    intro offset buffer lines hof hb hl
    have h0 : offset = 0 := Nat.le_zero.mp hof
    subst h0
    rw [show readLastLoop file n 0 0 buffer lines = (0, buffer, lines) from rfl]
    exact ⟨hb, by rw [hl], fun _ => rfl⟩
  | succ fuel ih =>
    intro offset buffer lines hof hb hl
    by_cases hc : lines.length < n ∧ 0 < offset
    · rw [readLastLoop_succ_step file n fuel offset buffer lines hc]
      have hmin : 1 ≤ min chunkSize offset := by
        have : 0 < offset := hc.2
        simp only [chunkSize]
        omega
      refine ih (offset - min chunkSize offset) _ _ (by omega) ?_ rfl
      rw [hb]
      have hdd : file.drop offset =
          (file.drop (offset - min chunkSize offset)).drop (min chunkSize offset) := by
        rw [List.drop_drop]
        congr 1
        have : min chunkSize offset ≤ offset := Nat.min_le_right _ _
        omega
      rw [hdd, List.take_append_drop]
    · rw [readLastLoop_succ_stop file n fuel offset buffer lines hc]
      refine ⟨hb, by rw [hl], fun hlen => ?_⟩
      push_neg at hc
      have := hc hlen
      show offset = 0
      omega

theorem readLastNLines_length_eq (file : List Nat) (n : Nat) :
    (readLastNLines file n).length = min n (keptLines file).length := by
  by_cases hf : file.length = 0
  · have hfile : file = [] := List.length_eq_zero.mp hf
    subst hfile
    simp [readLastNLines, keptLines, splitNl, stripCR]
  · obtain ⟨h1, h2, h3⟩ :=
      readLastLoop_inv file n file.length file.length [] [] le_rfl
        (by rw [List.drop_length]) (by rw [extractLines_nil])
    rw [readLastNLines]
    simp only [if_neg hf]
    set r := readLastLoop file n file.length file.length [] [] with hr
    by_cases hlt : r.2.2.length < n
    · rw [if_pos ⟨h3 hlt, hlt⟩]
      rw [show r.2.1 = file from by rw [h1, h3 hlt, List.drop_zero]]
      rw [extractLines_length, scanLines_nil_eq]
    · rw [if_neg (fun hand => hlt hand.2)]
      have hlen : r.2.2.length = min n (keptLines (file.drop r.1)).length := by
        rw [h2, extractLines_length, h1, scanLines_nil_eq]
      have hk := keptLines_length_drop file r.1
      omega

/-- C1 (counterexample): the claimed count `min n (total lines)` fails on the
one-line file consisting of a single newline (one empty line): the
ReplayReader drops the empty line and returns nothing, while
`min 1 (totalLines) = 1`. -/
theorem readLastNLines_count_claim_false :
    ¬ ((readLastNLines [10] 1).length = min 1 (fileLines [10]).length) := by decide

/-- C1 (amended): for every file and every requested count `n ≥ 0` the
ReplayReader returns a list whose length is `min n k`, where `k` is the number
of lines of the file that are non-empty after stripping an optional trailing
carriage return (empty lines are dropped by `extractLines`); an empty file
yields an empty result (and, in the Go code, a nil error). -/
theorem readLastNLines_count (file : List Nat) (n : Nat) :
    (readLastNLines file n).length = min n (keptLines file).length ∧
    readLastNLines ([] : List Nat) n = [] := by
  refine ⟨readLastNLines_length_eq file n, ?_⟩
  rw [readLastNLines]
  simp

/-- C10: every line returned by `extractLines` is non-empty — empty lines
(including lines consisting solely of a carriage return) are dropped wherever
they occur in the buffer, not only a trailing one — and the result has at most
`n` elements. -/
theorem extractLines_drops_empty (buffer : List Nat) (n : Nat) :
    (∀ l ∈ extractLines buffer n, l ≠ []) ∧ (extractLines buffer n).length ≤ n := by
  constructor
  · intro l hl
    have hmem : l ∈ scanLines buffer [] := by
      unfold extractLines at hl
      simp only [] at hl
      split at hl
      · exact List.mem_of_mem_drop hl
      · exact hl
    rw [scanLines_nil_eq] at hmem
    have := List.of_mem_filter hmem
    simpa using this
  · rw [extractLines_length]
    omega

/-- Witness for C10 at a concrete buffer: the extraction of
"a\n\n\r\nb" keeps only the non-empty lines. -/
theorem extractLines_drops_empty_holds :
    ([97] ≠ ([] : List Nat)) ∧ (extractLines [97, 10, 10, 13, 10, 98] 5).length ≤ 5 :=
  ⟨(extractLines_drops_empty [97, 10, 10, 13, 10, 98] 5).1 [97] (by decide),
    (extractLines_drops_empty [97, 10, 10, 13, 10, 98] 5).2⟩

/-! The chunk-boundary behaviour of `readLastNLines`.  `repLine k` is `k`
copies of the two-byte line "x\n" (bytes 120, 10); the file below is 4097
bytes long, one byte more than a chunk, so the backward scan's first (and
only) chunk starts in the middle of the first line. -/

/-- Builds `k` copies of the newline-terminated one-character line "x". -/
def repLine : Nat → List Nat
  | 0 => []
  | k + 1 => 120 :: 10 :: repLine k

/-- The 4097-byte file "xx\n" followed by 2047 lines "x\n". -/
def fileC2 : List Nat := 120 :: 120 :: 10 :: repLine 2047

theorem repLine_length (k : Nat) : (repLine k).length = 2 * k := by
  induction k with
  | zero => rfl
  | succ k ih =>
    show (120 :: 10 :: repLine k).length = 2 * (k + 1)
    simp [ih]
    omega

theorem scanLines_repLine (k : Nat) : scanLines (repLine k) [] = List.replicate k [120] := by
  induction k with
  | zero => rfl
  | succ k ih =>
    show scanLines (120 :: 10 :: repLine k) [] = List.replicate (k + 1) [120]
    rw [List.replicate_succ]
    simp only [scanLines, stripCR]
    norm_num
    exact ih

theorem splitNl_repLine (k : Nat) :
    splitNl (repLine k) = List.replicate k [120] ++ [[]] := by
  induction k with
  | zero => rfl
  | succ k ih =>
    show splitNl (120 :: 10 :: repLine k) = List.replicate (k + 1) [120] ++ [[]]
    rw [List.replicate_succ]
    simp only [splitNl, ih]
    norm_num

theorem repLine_getLast (k : Nat) : (10 :: repLine k).getLast? = some 10 := by
  induction k with
  | zero => rfl
  | succ k ih =>
    show (10 :: 120 :: 10 :: repLine k).getLast? = some 10
    rw [List.getLast?_cons_cons, List.getLast?_cons_cons]
    exact ih

theorem extractLines_repLine :
    extractLines (repLine 2048) 2048 = List.replicate 2048 [120] := by
  unfold extractLines
  simp only []
  rw [scanLines_repLine, List.length_replicate, if_neg (lt_irrefl 2048)]

theorem fileC2_drop_one : fileC2.drop 1 = repLine 2048 := rfl

theorem fileC2_length : fileC2.length = 4097 := by
  show (120 :: 120 :: 10 :: repLine 2047).length = 4097
  simp [repLine_length]

theorem readLastNLines_fileC2 :
    readLastNLines fileC2 2048 = List.replicate 2048 [120] := by
  have hstep1 : readLastLoop fileC2 2048 4097 4097 [] [] =
      readLastLoop fileC2 2048 4096 1 (repLine 2048) (List.replicate 2048 [120]) := by
    rw [show (4097 : Nat) = 4096 + 1 from by norm_num]
    rw [readLastLoop_succ_step fileC2 2048 4096 4097 [] [] (by norm_num)]
    have hmin : min chunkSize 4097 = 4096 := by norm_num [chunkSize]
    rw [hmin, show (4097 : Nat) - 4096 = 1 from by norm_num, fileC2_drop_one,
      List.take_of_length_le (by rw [repLine_length]),
      List.append_nil, extractLines_repLine]
  have hstep2 : readLastLoop fileC2 2048 4096 1 (repLine 2048) (List.replicate 2048 [120]) =
      (1, repLine 2048, List.replicate 2048 [120]) := by
    rw [show (4096 : Nat) = 4095 + 1 from by norm_num]
    exact readLastLoop_succ_stop fileC2 2048 4095 1 (repLine 2048)
      (List.replicate 2048 [120]) (by rw [List.length_replicate]; omega)
  rw [readLastNLines]
  simp only [fileC2_length]
  rw [if_neg (by norm_num), hstep1, hstep2,
    if_neg (fun h => Nat.one_ne_zero h.1)]

theorem fileLines_fileC2 :
    fileLines fileC2 = [120, 120] :: List.replicate 2047 [120] := by
  have hsplit : splitNl fileC2 = ([120, 120] :: List.replicate 2047 [120]) ++ [[]] := by
    have h : fileC2 = [120, 120] ++ 10 :: repLine 2047 := rfl
    rw [h, splitNl_append_nl _ (by decide), splitNl_repLine]
    rfl
  have hlast : fileC2.getLast? = some 10 := by
    show (120 :: 120 :: 10 :: repLine 2047).getLast? = some 10
    rw [List.getLast?_cons_cons, List.getLast?_cons_cons]
    exact repLine_getLast 2047
  rw [fileLines, if_neg (by simp [fileC2]), if_pos hlast, hsplit, List.dropLast_concat]

theorem lastLinesSpec_fileC2 :
    lastLinesSpec fileC2 2048 = [120, 120] :: List.replicate 2047 [120] := by
  rw [lastLinesSpec]
  simp only [fileLines_fileC2, List.map_cons, List.map_replicate]
  rw [show stripCR [120, 120] = [120, 120] from rfl,
    show stripCR [120] = [120] from rfl,
    show ([120, 120] :: List.replicate 2047 [120]).length - 2048 = 0 from by
      rw [List.length_cons, List.length_replicate],
    List.drop_zero]

/-- C2: at the 4097-byte file "xx\n" + 2047 × "x\n" with n = 2048 (which does
not exceed the file's 2048-line count), the ReplayReader's first returned line
is "x", a truncated suffix of the first line "xx": the backward chunk scan
stops as soon as it has `n` newline-separated segments, even though the first
segment of the 4096-byte chunk is only the tail of a line cut at the chunk
boundary.  This contradicts the claim, the spec ("stop once at least N
complete lines have been extracted") and the function's own documentation
("reads the last N lines from a file"). -/
theorem readLastNLines_truncates_at_chunk_boundary :
    readLastNLines fileC2 2048 = List.replicate 2048 [120] ∧
    lastLinesSpec fileC2 2048 = [120, 120] :: List.replicate 2047 [120] ∧
    readLastNLines fileC2 2048 ≠ lastLinesSpec fileC2 2048 ∧
    2048 ≤ (fileLines fileC2).length := by
  refine ⟨readLastNLines_fileC2, lastLinesSpec_fileC2, ?_, ?_⟩
  · rw [readLastNLines_fileC2, lastLinesSpec_fileC2,
      show (2048 : Nat) = 2047 + 1 from by norm_num, List.replicate_succ]
    intro h
    rw [List.cons.injEq] at h
    exact (by decide : ¬ ([120] : List Nat) = [120, 120]) h.1
  · rw [fileLines_fileC2, List.length_cons, List.length_replicate]

/-! Lifecycle state machine of the `Watcher` (watcher.go).  The mutable state
guarded by `w.mu` is the pair of booleans `closed`/`watching` plus the
nullable `cancel` function and `doneCh` channel; nullability is modelled by
the booleans `cancelSet`/`doneSet`. -/

structure Watcher where
  closed : Bool
  watching : Bool
  cancelSet : Bool
  doneSet : Bool
  deriving DecidableEq, Repr

/-- The two lifecycle sentinel errors of the `vrclog` package. -/
inductive WatchSentinel where
  | ErrWatcherClosed
  | ErrAlreadyWatching
  deriving DecidableEq, Repr

/-- Result of one `Watcher.Watch` call: the state afterwards, the returned
error, and whether the call created the event/error channels and spawned the
background goroutine. -/
structure WatchCall where
  state : Watcher
  err : Option WatchSentinel
  channelsCreated : Bool
  goroutineSpawned : Bool
  deriving DecidableEq, Repr

/-- Embedding of `Watcher.Watch` (watcher.go): under the mutex, a closed
watcher fails with `ErrWatcherClosed`, a watching one with
`ErrAlreadyWatching`; otherwise the watcher becomes watching, `cancel` and
`doneCh` are set, the two channels are created and `run` is spawned. -/
def Watcher.WatchM (w : Watcher) : WatchCall :=
  if w.closed then ⟨w, some .ErrWatcherClosed, false, false⟩
  else if w.watching then ⟨w, some .ErrAlreadyWatching, false, false⟩
  else ⟨{ w with watching := true, cancelSet := true, doneSet := true }, none, true, true⟩

/-- Result of one `Watcher.Close` call: the state afterwards, the returned
error, and whether the call invoked the cancel function and waited on
`doneCh`. -/
structure CloseCall where
  state : Watcher
  err : Option WatchSentinel
  didCancel : Bool
  didWait : Bool
  deriving DecidableEq, Repr

/-- Embedding of `Watcher.Close` (watcher.go): an already-closed watcher
returns nil at once; otherwise the watcher is marked closed, `cancel` is
called when set, and the call waits on `doneCh` when set.  The return value is
always nil. -/
def Watcher.CloseM (w : Watcher) : CloseCall :=
  if w.closed then ⟨w, none, false, false⟩
  else ⟨{ w with closed := true }, none, w.cancelSet, w.doneSet⟩

/-- C3: calling Watch on a watcher that is already closed or already watching
fails with the corresponding sentinel (`ErrWatcherClosed` takes priority,
matching the order of the checks in the code) and has no side effect: no
channel is created, no goroutine is spawned, and the state is unchanged. -/
theorem Watch_no_side_effect_when_busy (w : Watcher)
    (h : w.closed = true ∨ w.watching = true) :
    w.WatchM.state = w ∧ w.WatchM.channelsCreated = false ∧
    w.WatchM.goroutineSpawned = false ∧
    w.WatchM.err = some (if w.closed then .ErrWatcherClosed else .ErrAlreadyWatching) := by
  rcases h with h | h
  · simp [Watcher.WatchM, h]
  · by_cases hc : w.closed = true
    · simp [Watcher.WatchM, hc]
    · simp at hc
      simp [Watcher.WatchM, hc, h]

/-- Witness for C3: a closed watcher and a watching watcher both reject
Watch without side effects. -/
theorem Watch_no_side_effect_when_busy_holds :
    (Watcher.WatchM ⟨true, false, false, false⟩).state = ⟨true, false, false, false⟩ ∧
    (Watcher.WatchM ⟨true, false, false, false⟩).channelsCreated = false ∧
    (Watcher.WatchM ⟨true, false, false, false⟩).goroutineSpawned = false ∧
    (Watcher.WatchM ⟨true, false, false, false⟩).err =
      some (if (true : Bool) then .ErrWatcherClosed else .ErrAlreadyWatching) :=
  Watch_no_side_effect_when_busy ⟨true, false, false, false⟩ (Or.inl rfl)

/-- C4: Close always returns nil; Close on an already-closed watcher is an
immediate no-op (no cancel call, no wait, state unchanged); and re-closing is
idempotent: a second Close after any Close leaves the state identical, calls
nothing and waits on nothing. -/
theorem Close_idempotent (w : Watcher) :
    w.CloseM.err = none ∧
    (w.closed = true → w.CloseM = ⟨w, none, false, false⟩) ∧
    w.CloseM.state.CloseM = ⟨w.CloseM.state, none, false, false⟩ := by
  refine ⟨?_, ?_, ?_⟩
  · by_cases h : w.closed = true <;> simp [Watcher.CloseM, h]
  · intro h
    simp [Watcher.CloseM, h]
  · by_cases h : w.closed = true <;> simp [Watcher.CloseM, h]

/-- Witness for C4 at concrete watchers: Close of an already-closed watcher
is an immediate no-op, and Close after Close of an open watcher is one too. -/
theorem Close_idempotent_holds :
    (Watcher.CloseM ⟨false, true, true, true⟩).err = none ∧
    Watcher.CloseM ⟨true, false, false, false⟩ =
      ⟨⟨true, false, false, false⟩, none, false, false⟩ ∧
    (Watcher.CloseM ⟨false, true, true, true⟩).state.CloseM =
      ⟨(Watcher.CloseM ⟨false, true, true, true⟩).state, none, false, false⟩ :=
  ⟨(Close_idempotent ⟨false, true, true, true⟩).1,
    (Close_idempotent ⟨true, false, false, false⟩).2.1 rfl,
    (Close_idempotent ⟨false, true, true, true⟩).2.2⟩

/-! Configuration model (watcher.go).  `time.Duration` is modelled as `Int`
(nanoseconds) and `time.Time` as `Int`, with `0` standing for the zero time
(`IsZero`).  The `LogDir` and `Logger` fields play no role in validation and
are omitted. -/

inductive ReplayMode where
  | ReplayNone
  | ReplayFromStart
  | ReplayLastN
  | ReplaySinceTime
  deriving DecidableEq, Repr

structure ReplayConfig where
  Mode : ReplayMode
  LastN : Int
  Since : Int
  deriving DecidableEq, Repr

structure WatchOptions where
  PollInterval : Int
  IncludeRawLine : Bool
  Replay : ReplayConfig
  MaxReplayLines : Int
  deriving DecidableEq, Repr

/-- Default maximum lines for ReplayLastN mode (watcher.go). -/
def DefaultMaxReplayLastN : Int := 10000

inductive ValidateErr where
  | lastNNegative
  | lastNExceedsMax
  | sinceNotSet
  | pollIntervalNegative
  deriving DecidableEq, Repr

/-- Embedding of `WatchOptions.Validate` (watcher.go): rejects a negative
`LastN`, a `LastN` above the effective maximum (`MaxReplayLines`, defaulting
to 10000 when 0 and unlimited when negative), an unset `Since` in
ReplaySinceTime mode, and a negative poll interval. -/
def WatchOptions.Validate (o : WatchOptions) : Option ValidateErr :=
  if o.Replay.Mode = .ReplayLastN ∧ o.Replay.LastN < 0 then some .lastNNegative
  else if o.Replay.Mode = .ReplayLastN ∧
      (0 < if o.MaxReplayLines = 0 then DefaultMaxReplayLastN else o.MaxReplayLines) ∧
      (if o.MaxReplayLines = 0 then DefaultMaxReplayLastN else o.MaxReplayLines) <
        o.Replay.LastN then
    some .lastNExceedsMax
  else if o.Replay.Mode = .ReplaySinceTime ∧ o.Replay.Since = 0 then some .sinceNotSet
  else if o.PollInterval < 0 then some .pollIntervalNegative
  else none

inductive NewWatcherErr where
  | invalidOptions (e : ValidateErr)
  | dirErr (e : String)
  deriving DecidableEq, Repr

/-- Embedding of `NewWatcher` (watcher.go): validates the options first and
fails synchronously on a validation error, then resolves the log directory
(`logfinder.FindLogDir` is an external collaborator, its result is the
`dirResult` argument).  It never spawns a goroutine; the fresh watcher is
returned in the initial state. -/
def NewWatcher (o : WatchOptions) (dirResult : Except String Unit) :
    Except NewWatcherErr Watcher :=
  match o.Validate with
  | some e => .error (.invalidOptions e)
  | none =>
    match dirResult with
    | .error e => .error (.dirErr e)
    | .ok _ => .ok ⟨false, false, false, false⟩

/-- The validity condition exactly as claim C5 states it, including its
assertion that a poll interval of 0 is invalid. -/
def claimedInvalidC5 (o : WatchOptions) : Prop :=
  (o.Replay.Mode = .ReplayLastN ∧
    (o.Replay.LastN < 0 ∨
      ((0 < if o.MaxReplayLines = 0 then DefaultMaxReplayLastN else o.MaxReplayLines) ∧
        (if o.MaxReplayLines = 0 then DefaultMaxReplayLastN else o.MaxReplayLines) <
          o.Replay.LastN))) ∨
  (o.Replay.Mode = .ReplaySinceTime ∧ o.Replay.Since = 0) ∨
  o.PollInterval ≤ 0

/-- C5 (counterexample): the zero-value options (poll interval 0, replay mode
None) are accepted by `Validate`, although the claim calls a poll interval of
0 invalid: 0 means "use the 2-second default" and only negative intervals are
rejected. -/
theorem Validate_claim_false :
    ¬ ((WatchOptions.Validate ⟨0, false, ⟨.ReplayNone, 0, 0⟩, 0⟩).isSome ↔
      claimedInvalidC5 ⟨0, false, ⟨.ReplayNone, 0, 0⟩, 0⟩) := by
  unfold claimedInvalidC5
  decide

/-- C5 (amended): `Validate` returns an error exactly when replay mode is
LastN with a negative n or with n above the effective maximum
(`MaxReplayLines`, 10000 when 0, unlimited when negative), or replay mode is
SinceTime with an unset (zero) time, or the poll interval is negative (0 is
valid and means the 2-second default); and `NewWatcher` surfaces any
validation error synchronously, wrapped as an invalid-options error, creating
nothing. -/
theorem Validate_iff (o : WatchOptions) :
    ((o.Validate).isSome ↔
      ((o.Replay.Mode = .ReplayLastN ∧
        (o.Replay.LastN < 0 ∨
          ((0 < if o.MaxReplayLines = 0 then DefaultMaxReplayLastN else o.MaxReplayLines) ∧
            (if o.MaxReplayLines = 0 then DefaultMaxReplayLastN else o.MaxReplayLines) <
              o.Replay.LastN))) ∨
      (o.Replay.Mode = .ReplaySinceTime ∧ o.Replay.Since = 0) ∨
      o.PollInterval < 0)) ∧
    ∀ d e, o.Validate = some e → NewWatcher o d = .error (.invalidOptions e) := by
  constructor
  · unfold WatchOptions.Validate
    by_cases h1 : o.Replay.Mode = .ReplayLastN ∧ o.Replay.LastN < 0
    · rw [if_pos h1]
      simp only [Option.isSome_some, true_iff]
      tauto
    · rw [if_neg h1]
      by_cases h2 : o.Replay.Mode = .ReplayLastN ∧
          (0 < if o.MaxReplayLines = 0 then DefaultMaxReplayLastN else o.MaxReplayLines) ∧
          (if o.MaxReplayLines = 0 then DefaultMaxReplayLastN else o.MaxReplayLines) <
            o.Replay.LastN
      · rw [if_pos h2]
        simp only [Option.isSome_some, true_iff]
        tauto
      · rw [if_neg h2]
        by_cases h3 : o.Replay.Mode = .ReplaySinceTime ∧ o.Replay.Since = 0
        · rw [if_pos h3]
          simp only [Option.isSome_some, true_iff]
          tauto
        · rw [if_neg h3]
          by_cases h4 : o.PollInterval < 0
          · rw [if_pos h4]
            simp only [Option.isSome_some, true_iff]
            tauto
          · rw [if_neg h4]
            simp only [Option.isSome_none, false_iff]
            tauto
  · intro d e h
    unfold NewWatcher
    rw [h]

/-- Witness for C5: options asking for the last 20000 lines exceed the
default maximum of 10000, are rejected by `Validate`, and make `NewWatcher`
fail synchronously with the wrapped validation error. -/
theorem Validate_iff_holds :
    ((WatchOptions.Validate ⟨0, false, ⟨.ReplayLastN, 20000, 0⟩, 0⟩).isSome ↔
      ((ReplayMode.ReplayLastN = .ReplayLastN ∧
        ((20000 : Int) < 0 ∨
          ((0 < if (0 : Int) = 0 then DefaultMaxReplayLastN else 0) ∧
            (if (0 : Int) = 0 then DefaultMaxReplayLastN else 0) < (20000 : Int)))) ∨
      (ReplayMode.ReplayLastN = .ReplaySinceTime ∧ (0 : Int) = 0) ∨
      (0 : Int) < 0)) ∧
    NewWatcher ⟨0, false, ⟨.ReplayLastN, 20000, 0⟩, 0⟩ (.ok ()) =
      .error (.invalidOptions .lastNExceedsMax) :=
  ⟨(Validate_iff ⟨0, false, ⟨.ReplayLastN, 20000, 0⟩, 0⟩).1,
    (Validate_iff ⟨0, false, ⟨.ReplayLastN, 20000, 0⟩, 0⟩).2 (.ok ()) .lastNExceedsMax
      (by decide)⟩

/-! Rotation handling: the `case <-rotationTicker.C` branch of `Watcher.run`
(watcher.go).  The tailer (`internal/tailer`) is an external collaborator:
only its path, its `FromStart` configuration and whether it has been stopped
matter here, and the outcomes of `logfinder.FindLatestLogFile` and
`tailer.New` are inputs. -/

/-- Embedding of `tailer.Config` (internal/tailer): follow mode, reopen on
truncate/recreate, polling instead of inotify, require the file to exist, and
whether to read from the beginning of the file instead of the end. -/
structure TailerConfig where
  Follow : Bool
  ReOpen : Bool
  Poll : Bool
  MustExist : Bool
  FromStart : Bool
  deriving DecidableEq, Repr

/-- Embedding of `tailer.DefaultConfig` (internal/tailer): follow and reopen,
no polling, the file must exist, and start from the end of the file (tail -f
behaviour). -/
def DefaultConfig : TailerConfig :=
  { Follow := true, ReOpen := true, Poll := false, MustExist := true, FromStart := false }

structure Tailer where
  path : String
  config : TailerConfig
  stopped : Bool
  deriving DecidableEq, Repr

inductive WatchOp where
  | FindLatest
  | Tail
  | Parse
  | Replay
  | Rotation
  deriving DecidableEq, Repr

/-- The `WatchError` of the `vrclog` package: failing operation, optional
path, and the underlying error (modelled as a string). -/
structure WatchError where
  Op : WatchOp
  Path : String
  Err : String
  deriving DecidableEq, Repr

/-- Result of one rotation-timer tick: the tailed file and tailer afterwards,
whether the previous tailer was stopped, the open request issued to
`tailer.New` (path and config), and the errors sent on the error channel. -/
structure RotationTick where
  currentFile : String
  tailer : Tailer
  oldStopped : Bool
  openReq : Option (String × TailerConfig)
  errorsSent : List WatchError
  deriving DecidableEq, Repr

/-- Embedding of the rotation-timer branch of `Watcher.run` (watcher.go):
re-resolve the latest file (`resolved` is the collaborator's answer); on
failure send a rotation `WatchError` and continue unchanged; when the answer
differs from the currently tailed file, stop the old tailer and ask
`tailer.New` for the new file with `FromStart = true` (`openFails` tells
whether that call fails; on failure a tail `WatchError` is sent and the loop
continues, the old tailer remaining stopped); when it is the same file,
nothing happens. -/
def rotationTick (currentFile : String) (t : Tailer)
    (resolved : Except String String) (openFails : Bool) : RotationTick :=
  match resolved with
  | .error e => ⟨currentFile, t, false, none, [⟨.Rotation, "", e⟩]⟩
  | .ok newFile =>
    if newFile ≠ currentFile then
      let cfg : TailerConfig := { DefaultConfig with FromStart := true }
      if openFails then
        ⟨currentFile, { t with stopped := true }, true, some (newFile, cfg),
          [⟨.Tail, newFile, "tailer.New failed"⟩]⟩
      else
        ⟨newFile, ⟨newFile, cfg, false⟩, true, some (newFile, cfg), []⟩
    else
      ⟨currentFile, t, false, none, []⟩

/-- C6: on a rotation tick, a failed resolution of the latest file only sends
a rotation WatchError and leaves the tailed file and tailer untouched (no
source switch); a successful resolution to a different file stops the old
tailer, requests a tailer on the new file always with FromStart = true, and
(when that open succeeds) continues with the new file as the current one, so
the old file is not tailed again. -/
theorem rotationTick_behaviour (currentFile : String) (t : Tailer)
    (resolved : Except String String) (openFails : Bool) :
    (∀ e, resolved = .error e →
      rotationTick currentFile t resolved openFails =
        ⟨currentFile, t, false, none, [⟨.Rotation, "", e⟩]⟩) ∧
    (∀ f, resolved = .ok f → f ≠ currentFile →
      (rotationTick currentFile t resolved openFails).oldStopped = true ∧
      (rotationTick currentFile t resolved openFails).openReq =
        some (f, { DefaultConfig with FromStart := true }) ∧
      (TailerConfig.FromStart { DefaultConfig with FromStart := true }) = true ∧
      (openFails = false →
        (rotationTick currentFile t resolved openFails).currentFile = f ∧
        (rotationTick currentFile t resolved openFails).tailer =
          ⟨f, { DefaultConfig with FromStart := true }, false⟩)) := by
  constructor
  · intro e he
    subst he
    rfl
  · intro f hf hne
    subst hf
    cases openFails <;>
      simp [rotationTick, hne, DefaultConfig]

/-- Witness for C6 at concrete inputs: a resolution failure leaves the state
alone, and a successful resolution to a fresh file swaps the source, reading
it from the start. -/
theorem rotationTick_behaviour_holds :
    rotationTick "a.log" ⟨"a.log", DefaultConfig, false⟩ (.error "boom") false =
      ⟨"a.log", ⟨"a.log", DefaultConfig, false⟩, false, none, [⟨.Rotation, "", "boom"⟩]⟩ ∧
    (rotationTick "a.log" ⟨"a.log", DefaultConfig, false⟩ (.ok "b.log") false).oldStopped =
      true ∧
    (rotationTick "a.log" ⟨"a.log", DefaultConfig, false⟩ (.ok "b.log") false).openReq =
      some ("b.log", { DefaultConfig with FromStart := true }) ∧
    (rotationTick "a.log" ⟨"a.log", DefaultConfig, false⟩ (.ok "b.log") false).currentFile =
      "b.log" ∧
    (rotationTick "a.log" ⟨"a.log", DefaultConfig, false⟩ (.ok "b.log") false).tailer =
      ⟨"b.log", { DefaultConfig with FromStart := true }, false⟩ := by
  have h1 := (rotationTick_behaviour "a.log" ⟨"a.log", DefaultConfig, false⟩
    (.error "boom") false).1 "boom" rfl
  have h2 := (rotationTick_behaviour "a.log" ⟨"a.log", DefaultConfig, false⟩
    (.ok "b.log") false).2 "b.log" rfl (by decide)
  exact ⟨h1, h2.1, h2.2.1, (h2.2.2.2 rfl).1, (h2.2.2.2 rfl).2⟩

/-! The compiled event-type filter (`compiledFilter` of the `vrclog`
package).  Go's `include`/`exclude` maps are modelled as lists (`incl`/`excl`
— `include` is reserved in Lean) whose membership is what matters; the nil
pointer receiver is an `Option`. -/

structure CompiledFilter where
  incl : List String
  excl : List String
  deriving DecidableEq, Repr

/-- Embedding of `newCompiledFilter`: returns nil when both lists are empty
(no filtering needed). -/
def newCompiledFilter (incl excl : List String) : Option CompiledFilter :=
  if incl = [] ∧ excl = [] then none else some ⟨incl, excl⟩

/-- Embedding of `compiledFilter.Allows`: a nil filter allows everything; a
non-empty include list rejects types outside it; the exclude list always
rejects its members. -/
def Allows : Option CompiledFilter → String → Bool
  | none, _ => true
  | some f, t =>
    if f.incl ≠ [] ∧ t ∉ f.incl then false
    else if f.excl ≠ [] ∧ t ∈ f.excl then false
    else true

/-- The include set of a possibly-nil filter (empty for nil). -/
def includeSet : Option CompiledFilter → List String
  | none => []
  | some f => f.incl

/-- The exclude set of a possibly-nil filter (empty for nil). -/
def excludeSet : Option CompiledFilter → List String
  | none => []
  | some f => f.excl

/-- C7: the compiled filter is the single allow/deny predicate of the spec:
`Allows f t` holds exactly when the include set is empty or contains `t`, and
the exclude set does not contain `t`; exclusion beats inclusion, an empty
include set allows all types, and a nil filter (whose two sets are empty)
allows everything. -/
theorem Allows_iff (f : Option CompiledFilter) (t : String) :
    Allows f t = true ↔
      ((includeSet f = [] ∨ t ∈ includeSet f) ∧ t ∉ excludeSet f) := by
  cases f with
  | none => simp [Allows, includeSet, excludeSet]
  | some f =>
    simp only [Allows, includeSet, excludeSet]
    by_cases hi : f.incl ≠ [] ∧ t ∉ f.incl
    · rw [if_pos hi]
      simp only [Bool.false_eq_true, false_iff]
      tauto
    · rw [if_neg hi]
      by_cases he : f.excl ≠ [] ∧ t ∈ f.excl
      · rw [if_pos he]
        simp only [Bool.false_eq_true, false_iff]
        tauto
      · rw [if_neg he]
        simp only [true_iff]
        constructor
        · tauto
        · intro hmem
          exact he ⟨List.ne_nil_of_mem hmem, hmem⟩

/-! The per-line event pipeline `Watcher.processLine` (watcher.go).  The
parser (`internal/parser.Parse`, an external collaborator) is passed as a
function returning `Except` (parse failure) of `Option Event` (nil for an
unrecognized line).  Timestamps are modelled as `Int` (`t.Before u` is
`t < u`).  Of the Go `Event` only the fields the pipeline touches are kept:
the event type (Go field `Type`, a keyword in Lean, hence `EType`), the
timestamp and the raw line. -/

structure Event where
  EType : String
  Timestamp : Int
  RawLine : String
  deriving DecidableEq, Repr

/-- A `ParseError` of the `vrclog` package: the offending line and the
underlying parser error. -/
structure ParseErrorM where
  Line : String
  Err : String
  deriving DecidableEq, Repr

/-- Embedding of `Watcher.processLine` (watcher.go): parse the line (a parse
failure is reported, an unrecognized line skipped), drop the event if replay
mode is SinceTime and its timestamp precedes the configured time, drop it if
the compiled type filter denies its type, attach the raw line if configured,
and deliver it.  Cancellation of the final send is not modelled; the
delivered event is the first component. -/
def processLine (o : WatchOptions) (f : Option CompiledFilter)
    (parse : String → Except String (Option Event)) (line : String) :
    Option Event × List ParseErrorM :=
  match parse line with
  | .error e => (none, [⟨line, e⟩])
  | .ok none => (none, [])
  | .ok (some ev) =>
    if o.Replay.Mode = .ReplaySinceTime ∧ ev.Timestamp < o.Replay.Since then (none, [])
    else if Allows f ev.EType = false then (none, [])
    else if o.IncludeRawLine then (some { ev with RawLine := line }, [])
    else (some ev, [])

/-- The lines of a replay pass fed through `processLine` one after the other
(the loop of `Watcher.replayLastN`), collecting the delivered events in
order. -/
def processAll (o : WatchOptions) (f : Option CompiledFilter)
    (parse : String → Except String (Option Event)) : List String → List Event
  | [] => []
  | l :: ls => (processLine o f parse l).1.toList ++ processAll o f parse ls

/-- The successfully parsed events of the input lines, paired with their
lines, in file order. -/
def parsedEvents (parse : String → Except String (Option Event)) :
    List String → List (String × Event)
  | [] => []
  | l :: ls =>
    match parse l with
    | .ok (some ev) => (l, ev) :: parsedEvents parse ls
    | _ => parsedEvents parse ls

/-- The temporal and type test of the pipeline, in the order the code applies
them. -/
def passesPipeline (o : WatchOptions) (f : Option CompiledFilter) (ev : Event) : Bool :=
  if o.Replay.Mode = .ReplaySinceTime ∧ ev.Timestamp < o.Replay.Since then false
  else Allows f ev.EType

/-- The optional raw-line attachment of the pipeline. -/
def attachRaw (o : WatchOptions) (line : String) (ev : Event) : Event :=
  if o.IncludeRawLine then { ev with RawLine := line } else ev

theorem processAll_cons (o : WatchOptions) (f : Option CompiledFilter)
    (parse : String → Except String (Option Event)) (l : String) (ls : List String) :
    processAll o f parse (l :: ls) =
      (processLine o f parse l).1.toList ++ processAll o f parse ls := rfl

theorem processLine_delivered (o : WatchOptions) (f : Option CompiledFilter)
    (parse : String → Except String (Option Event)) (line : String) :
    (processLine o f parse line).1 =
      match parse line with
      | .ok (some ev) =>
        if passesPipeline o f ev then some (attachRaw o line ev) else none
      | _ => none := by
  unfold processLine passesPipeline attachRaw
  rcases parse line with e | (_ | ev)
  · rfl
  · rfl
  · simp only []
    by_cases h1 : o.Replay.Mode = .ReplaySinceTime ∧ ev.Timestamp < o.Replay.Since
    · simp [h1]
    · by_cases h2 : Allows f ev.EType
      · by_cases h3 : o.IncludeRawLine <;> simp [h1, h2, h3]
      · simp only [Bool.not_eq_true] at h2
        simp [h1, h2]

theorem processAll_eq_filtered (o : WatchOptions) (f : Option CompiledFilter)
    (parse : String → Except String (Option Event)) (lines : List String) :
    processAll o f parse lines =
      ((parsedEvents parse lines).filter (fun p => passesPipeline o f p.2)).map
        (fun p => attachRaw o p.1 p.2) := by
  induction lines with
  | nil => rfl
  | cons l ls ih =>
    rw [processAll_cons, processLine_delivered, ih,
      show parsedEvents parse (l :: ls) =
        (match parse l with
          | .ok (some ev) => (l, ev) :: parsedEvents parse ls
          | _ => parsedEvents parse ls) from rfl]
    rcases parse l with e | (_ | ev)
    · rfl
    · rfl
    · simp only [List.filter_cons]
      by_cases hp : passesPipeline o f ev
      · simp [hp]
      · simp only [Bool.not_eq_true] at hp
        simp [hp]

/-- C8: with replay directive SinceTime at time `Since`, no delivered event
has a timestamp before `Since`, and the delivered events are exactly the
parsed events that pass the temporal and type checks, in file (input) order,
with the raw line attached only when configured. -/
theorem processAll_sinceTime (o : WatchOptions) (f : Option CompiledFilter)
    (parse : String → Except String (Option Event)) (lines : List String)
    (h : o.Replay.Mode = .ReplaySinceTime) :
    (∀ ev ∈ processAll o f parse lines, o.Replay.Since ≤ ev.Timestamp) ∧
    processAll o f parse lines =
      ((parsedEvents parse lines).filter (fun p => passesPipeline o f p.2)).map
        (fun p => attachRaw o p.1 p.2) := by
  refine ⟨?_, processAll_eq_filtered o f parse lines⟩
  intro ev hev
  rw [processAll_eq_filtered o f parse lines] at hev
  obtain ⟨p, hp, hpe⟩ := List.mem_map.mp hev
  have hpass := List.of_mem_filter hp
  have hts : ¬ (o.Replay.Mode = .ReplaySinceTime ∧ p.2.Timestamp < o.Replay.Since) := by
    intro habs
    rw [passesPipeline, if_pos habs] at hpass
    exact Bool.false_ne_true hpass
  have hnlt : ¬ p.2.Timestamp < o.Replay.Since := fun hlt => hts ⟨h, hlt⟩
  have hle : o.Replay.Since ≤ p.2.Timestamp := Int.not_lt.mp hnlt
  have hts2 : ev.Timestamp = p.2.Timestamp := by
    rw [← hpe]
    unfold attachRaw
    by_cases hr : o.IncludeRawLine <;> simp [hr]
  rw [hts2]
  exact hle

/-- A concrete parser for the C8 witness: "old" parses to a join event at
time 1, "new" to one at time 7, "junk" fails, anything else is
unrecognized. -/
def parseW : String → Except String (Option Event) :=
  fun l =>
    if l = "old" then .ok (some ⟨"player_join", 1, ""⟩)
    else if l = "new" then .ok (some ⟨"player_join", 7, ""⟩)
    else if l = "junk" then .error "malformed"
    else .ok none

/-- Concrete SinceTime options for the C8 witness: replay everything from
time 5 on. -/
def optsW : WatchOptions := ⟨0, false, ⟨.ReplaySinceTime, 0, 5⟩, 0⟩

/-- Witness for C8: over the lines "old", "junk", "skip", "new" with the
since-time 5, only the event at time 7 is delivered, and it is not before 5. -/
theorem processAll_sinceTime_holds :
    (5 : Int) ≤ (Event.mk "player_join" 7 "").Timestamp ∧
    processAll optsW none parseW ["old", "junk", "skip", "new"] =
      [⟨"player_join", 7, ""⟩] := by
  have h := processAll_sinceTime optsW none parseW ["old", "junk", "skip", "new"] rfl
  refine ⟨h.1 ⟨"player_join", 7, ""⟩ ?_, h.2.trans (by decide)⟩
  rw [h.2]
  decide

/-! The non-blocking error send `sendError` (watcher.go).  The buffered error
channel is modelled as the list of errors currently queued (its capacity is
`watcherErrBuffer`), `cancelled` is whether `ctx.Done()` has fired, and the
error argument is an `Option` (`none` is Go's nil error).  When both the send
and the cancellation case of the select are ready Go picks one at random;
`pickCancel` resolves that choice.  The function is total — it never blocks —
and returns the queue after the call. -/

/-- Buffer size of the error channel (watcher.go). -/
def watcherErrBuffer : Nat := 16

/-- Embedding of `sendError` (watcher.go): a nil error is ignored; otherwise
the select enqueues when there is room (unless cancellation is also ready and
wins the pick), and drops the error when the buffer is full (via the
cancellation case when cancelled, via the default case otherwise). -/
def sendError {α : Type} (cancelled : Bool) (queue : List α) (err : Option α)
    (pickCancel : Bool) : List α :=
  match err with
  | none => queue
  | some e =>
    if queue.length < watcherErrBuffer then
      if cancelled ∧ pickCancel then queue else queue ++ [e]
    else queue

/-- C9: `sendError` never blocks (it is a total function of the channel
state): it either enqueues the error or leaves the queue unchanged, the
latter only when the error is nil, the buffer (capacity 16) is full, or
cancellation has fired; a nil error is never enqueued; and the queue never
grows beyond its capacity. -/
theorem sendError_some {α : Type} (cancelled : Bool) (queue : List α) (e : α)
    (pickCancel : Bool) :
    sendError cancelled queue (some e) pickCancel =
      if queue.length < watcherErrBuffer then
        if cancelled ∧ pickCancel then queue else queue ++ [e]
      else queue := rfl

theorem sendError_no_block {α : Type} (cancelled : Bool) (queue : List α)
    (err : Option α) (pickCancel : Bool) :
    (sendError cancelled queue err pickCancel = queue ++ err.toList ∨
      sendError cancelled queue err pickCancel = queue) ∧
    (∀ e, err = some e → sendError cancelled queue err pickCancel = queue →
      watcherErrBuffer ≤ queue.length ∨ cancelled = true) ∧
    (err = none → sendError cancelled queue err pickCancel = queue) ∧
    (queue.length ≤ watcherErrBuffer →
      (sendError cancelled queue err pickCancel).length ≤ watcherErrBuffer) := by
  rcases err with _ | e
  · exact ⟨Or.inr rfl, ⟨fun e h => Option.noConfusion h, ⟨fun _ => rfl, fun h => h⟩⟩⟩
  · rw [sendError_some]
    refine ⟨?_, ?_, ?_, ?_⟩
    · by_cases h1 : queue.length < watcherErrBuffer
      · by_cases h2 : cancelled ∧ pickCancel
        · rw [if_pos h1, if_pos h2]
          exact Or.inr rfl
        · rw [if_pos h1, if_neg h2]
          exact Or.inl rfl
      · rw [if_neg h1]
        exact Or.inr rfl
    · intro e' _ hq
      by_cases h1 : queue.length < watcherErrBuffer
      · by_cases h2 : cancelled ∧ pickCancel
        · exact Or.inr h2.1
        · exfalso
          rw [if_pos h1, if_neg h2] at hq
          have := congrArg List.length hq
          simp at this
      · exact Or.inl (Nat.le_of_not_lt h1)
    · intro h
      cases h
    · intro hcap
      by_cases h1 : queue.length < watcherErrBuffer
      · by_cases h2 : cancelled ∧ pickCancel
        · rw [if_pos h1, if_pos h2]
          exact hcap
        · rw [if_pos h1, if_neg h2, List.length_append]
          simp only [List.length_cons, List.length_nil]
          omega
      · rw [if_neg h1]
        exact hcap

/-- Witness for C9: with cancellation fired and a one-element queue, the call
returns at once (here dropping the error), which can only happen because the
buffer is full or cancellation fired. -/
theorem sendError_no_block_holds :
    watcherErrBuffer ≤ ([0] : List Nat).length ∨ (true : Bool) = true :=
  (sendError_no_block true [0] (some 7) true).2.1 7 rfl (by decide)
